import Mathlib

/-!
Shallow embedding of the Comparitive-Feature-Evaluation repository
(`src/src/utils.py` and `src/generate_dirs.py`) together with proofs
about its specification.

Conventions of the embedding:
* float tensors become functions `Fin n → K` over a linear ordered
  field `K` (exact arithmetic in place of floating point); a batch is
  `Fin B → Fin n → K`, einsum broadcasting over leading axes is
  pointwise application;
* square root / trigonometric primitives of the numeric substrate are
  passed as explicit function parameters (`sqrtK`, `tanK`, `cosK`,
  `piK`), so all definitions stay computable and generic;
* `raise` becomes `Except`, in-place mutation of an object becomes a
  state-passing function returning the updated object;
* the hook registry of the torch module system is an explicit
  `HookState`; a forward pass whose outcome is irrelevant to a claim
  is abstracted as an `Except E A` value.
-/

namespace CFE

/-! ## `project` (utils.py, lines 81-88) -/

/-- `project(dir, dirs, strength)` from `utils.py`:
`inner_products = einsum("n h, ...h -> ...n", dirs, dir)` and
`new_dir = dir - strength * einsum("...n, n h -> ...h", inner_products, dirs)`,
written for a single vector (the einsum treats every leading batch axis
pointwise).  The python default `strength = 1` is passed explicitly by
callers of the embedding. -/
def project {K : Type} [Field K] {n k : ℕ} (dir : Fin n → K)
    (dirs : Fin k → Fin n → K) (strength : K) : Fin n → K :=
  fun h => dir h - strength * ∑ j, (∑ h2, dirs j h2 * dir h2) * dirs j h

/-- `project` applied to a batch of input vectors: the `...` axes of the
einsum are handled row by row. -/
def projectBatch {K : Type} [Field K] {B n k : ℕ} (X : Fin B → Fin n → K)
    (dirs : Fin k → Fin n → K) (strength : K) : Fin B → Fin n → K :=
  fun b => project (X b) dirs strength

/-! ## `project_cone` (utils.py, lines 40-79) -/

/-- One iteration of the grad-compatible loop of `project_cone`:
`norms[i] = (sum(Xs[i] ** 2, dim=-1)) ** 0.5`,
`cosines[i] = einsum("...h, h -> ...", Xs[i], dir) / norms[i]`, and
`Xs[i+1] = Xs[i] - einsum("h, ...->...h", dir, norms[i]) *
  ((cosines[i] - sqrt(1 - cosines[i]^2) / tan(gamma)) * (abs(cosines[i]) > cos(gamma)))[..., None]`.
The boolean mask is multiplied as `1 / 0` exactly as python promotes it. -/
def projectConeStep {K : Type} [LinearOrderedField K] {B n : ℕ}
    (sqrtK tanK cosK : K → K) (gamma : K)
    (X : Fin B → Fin n → K) (dir : Fin n → K) : Fin B → Fin n → K :=
  fun b =>
    let nrm := sqrtK (∑ h, X b h ^ 2)
    let cosine := (∑ h, X b h * dir h) / nrm
    fun h =>
      X b h -
        dir h * nrm *
          ((cosine - sqrtK (1 - cosine ^ 2) / tanK gamma) *
            (if cosK gamma < |cosine| then 1 else 0))

/-- `project_cone(X, dirs, gamma)` from `utils.py`.  The guard
`if gamma <= 0 or gamma >= np.pi / 2: raise ValueError(gamma)` becomes the
`Except.error gamma` branch; the loop `for i in range(dirs.shape[0])` walks
the direction rows in reverse (`dirs[-(i + 1)]`, i.e. last row first) and
threads the running tensor `Xs[i]` through `projectConeStep`. -/
def project_cone {K : Type} [LinearOrderedField K] {B n k : ℕ}
    (sqrtK tanK cosK : K → K) (piK : K)
    (X : Fin B → Fin n → K) (dirs : Fin k → Fin n → K) (gamma : K) :
    Except K (Fin B → Fin n → K) :=
  if gamma ≤ 0 ∨ piK / 2 ≤ gamma then
    Except.error gamma
  else
    Except.ok
      (((List.finRange k).reverse).foldl
        (fun Xc j => projectConeStep sqrtK tanK cosK gamma Xc (dirs j)) X)

/-! ## `ActivationsDataset` (utils.py, lines 12-37) -/

/-- `ActivationsDataset`: a 2D float activation matrix
(`x_data`, shape `(samples, hidden_dimension)`) together with the aligned
1D long label vector (`y_data`). -/
structure ActivationsDataset (K : Type) (B n : ℕ) where
  x_data : Fin B → Fin n → K
  y_data : Fin B → ℤ

/-- `dir / torch.linalg.norm(dir)` as used by both projection methods of
`ActivationsDataset`; the 2-norm `sqrt(sum(dir ** 2))` is taken through the
substrate square root `sqrtK`. -/
def l2normalize {K : Type} [Field K] (sqrtK : K → K) {n : ℕ}
    (dir : Fin n → K) : Fin n → K :=
  fun h => dir h / sqrtK (∑ h2, dir h2 ^ 2)

/-- `ActivationsDataset.project(dir)` as a method call in state-passing
form: the pair is `(self after the call, returned value)`.  The body
computes `dir_norm`, calls the free function `project` on `self.x_data`
with the single direction row `dir_norm[None, :]` (default strength 1) and
returns `ActivationsDataset(new_x_data, self.y_data)`; it never assigns to
`self`, so the first component is `self` unchanged. -/
def ActivationsDataset.project {K : Type} [Field K] (sqrtK : K → K)
    {B n : ℕ} (self : ActivationsDataset K B n) (dir : Fin n → K) :
    ActivationsDataset K B n × ActivationsDataset K B n :=
  (self,
   ⟨projectBatch self.x_data (fun _ : Fin 1 => l2normalize sqrtK dir) 1,
    self.y_data⟩)

/-- `ActivationsDataset.project_(dir)` (the in-place variant): the body
executes `self.x_data = project(self.x_data, dir_norm[None, :])`; the
result is the state of `self` after the call (python returns `None`). -/
def ActivationsDataset.project_ {K : Type} [Field K] (sqrtK : K → K)
    {B n : ℕ} (self : ActivationsDataset K B n) (dir : Fin n → K) :
    ActivationsDataset K B n :=
  ⟨projectBatch self.x_data (fun _ : Fin 1 => l2normalize sqrtK dir) 1,
   self.y_data⟩

/-! ## `fancy_print` (utils.py, lines 147-157) -/

/-- The separator `" "` of `" ".join(cl)`. -/
def spaceSep : String := " "

/-- The loop of `fancy_print`, operating on the word list `s.split()`.
State: `cl` is the current line's word list, `lcl` the running total of
the word lengths added to it (the joining spaces are not counted).  Each
`print(" ".join(cl))` is recorded as one flushed word group; the trailing
`print` after the loop always flushes the final group. -/
def fancyPrintGroups (maxLineLength : ℕ) :
    List String → List String → ℕ → List (List String)
  | [], cl, _ => [cl]
  | w :: ws, cl, lcl =>
    if lcl + w.length > maxLineLength then
      cl :: fancyPrintGroups maxLineLength ws [w] w.length
    else
      fancyPrintGroups maxLineLength ws (cl ++ [w]) (lcl + w.length)

/-- `fancy_print(s, max_line_length)`: the lines actually printed, for an
input whose whitespace-split word list is `words`.  Each flushed group is
printed as `" ".join(cl)`. -/
def fancy_print (words : List String) (maxLineLength : ℕ) : List String :=
  (fancyPrintGroups maxLineLength words [] 0).map
    (fun cl => String.intercalate spaceSep cl)

/-! ## Direction-file naming (generate_dirs.py, lines 23-54) -/

/-- Python truthiness of the `layer_nb: int = None` argument as used by
`if layer_nb`: `None` and `0` are falsy, every other int is truthy. -/
def pyIntOptTruthy : Option ℤ → Bool
  | none => false
  | some k => k != 0

/-- `f"{layer_nb}"` for the formatted layer number (only reached when the
argument is truthy, but total for completeness). -/
def pyIntOptStr : Option ℤ → String
  | none => "None"
  | some k => toString k

/-- The file name computed by `run` in `generate_dirs.py`:
`file_name = f"L{layer_nb} - {m.__name__} - {i} - v0.pt" if layer_nb else
f"{m.__name__} - {i} - v0.pt"`. -/
def runFileName (layer_nb : Option ℤ) (methodName : String) (i : ℕ) :
    String :=
  if pyIntOptTruthy layer_nb then
    ("L" ++ pyIntOptStr layer_nb ++ " - " ++ methodName ++ " - "
      ++ toString i ++ " - v0.pt")
  else
    (methodName ++ " - " ++ toString i ++ " - v0.pt")

/-! ## Forward-hook bookkeeping
(`get_activations`, utils.py lines 182-200; `run_and_modify`, lines
203-214).  Modules are identified by numbers; the registry of live
forward hooks is explicit, with fresh handle ids from a counter. -/

/-- The torch-side registry of forward hooks: `hooks` maps a handle id to
the module it is attached to, `nextId` is the fresh-handle counter. -/
structure HookState where
  nextId : ℕ
  hooks : List (ℕ × ℕ)
deriving DecidableEq

/-- `module.register_forward_hook(fn)`: appends a registration and returns
the handle. -/
def registerForwardHook (s : HookState) (module : ℕ) : HookState × ℕ :=
  (⟨s.nextId + 1, s.hooks ++ [(s.nextId, module)]⟩, s.nextId)

/-- `handle.remove()`: deletes the registration carrying that handle. -/
def removeHandle (s : HookState) (h : ℕ) : HookState :=
  ⟨s.nextId, s.hooks.filter (fun p => p.1 != h)⟩

/-- The registration loop `for module in modules:
handles.append(module.register_forward_hook(hook_fn))`. -/
def registerAll (s : HookState) : List ℕ → HookState × List ℕ
  | [] => (s, [])
  | m :: ms =>
    let p := registerForwardHook s m
    let q := registerAll p.1 ms
    (q.1, p.2 :: q.2)

/-- The cleanup loop `for handle in handles: handle.remove()`. -/
def removeAll (s : HookState) (handles : List ℕ) : HookState :=
  handles.foldl removeHandle s

/-- `get_activations(tokens, model, modules, operation)` restricted to its
hook bookkeeping and exception path.  The forward pass
`model(**tokens.to(model.device))` is abstracted by its outcome
`forward : Except E A` (`A` stands for the captured activations dict).
The body is `try: ... except Exception as e: raise e finally:
for handle in handles: handle.remove()`: both on success and on an
exception the handles are removed, and an exception is re-raised
unchanged. -/
def get_activations {E A : Type} (s : HookState) (modules : List ℕ)
    (forward : Except E A) : Except E A × HookState :=
  let r := registerAll s modules
  match forward with
  | Except.ok a => (Except.ok a, removeAll r.1 r.2)
  | Except.error e => (Except.error e, removeAll r.1 r.2)

/-- `run_and_modify(tokens, model, modification_fns)` restricted to its
hook bookkeeping and exception path; `modification_fns.items()` is the
association list `fns`, each pair being registered as a forward hook on
its module.  Same `try`/`except`/`finally` shape as `get_activations`. -/
def run_and_modify {E A F : Type} (s : HookState) (fns : List (ℕ × F))
    (forward : Except E A) : Except E A × HookState :=
  let r := registerAll s (fns.map Prod.fst)
  match forward with
  | Except.ok a => (Except.ok a, removeAll r.1 r.2)
  | Except.error e => (Except.error e, removeAll r.1 r.2)

/-! ## Module tree, `ProjectionWrapper`, `edit_model_inplace`,
`recover_model_inplace` (utils.py, lines 91-144).

A torch module is embedded as a tree: a regular module with registered
submodules under attribute names (`base`), an `nn.ModuleList` with
integer-string child names (`moduleList`), or a `ProjectionWrapper`
(whose registered submodule is its `wrapped_module` attribute; the
`projection` callable and `has_leftover` flag are carried as data).
Attribute traversal (`get_submodule`, `hasattr`, `setattr`, list
assignment) acts on this registry exactly as the torch module system
does for module-valued attributes. -/

/-- Python exceptions surfaced by the patching code. -/
inductive PyErr where
  | attributeError
  | pathError
deriving DecidableEq

/-- A torch module object. -/
inductive PyModule where
  | base : ℕ → List (String × PyModule) → PyModule
  | moduleList : List PyModule → PyModule
  | projectionWrapper : PyModule → ℕ → Bool → PyModule

/-- The attribute name `"wrapped_module"`. -/
def wrappedModuleAttr : String := "wrapped_module"

/-- Lookup of a registered submodule by attribute name. -/
def lookupChildren : List (String × PyModule) → String → Option PyModule
  | [], _ => none
  | (k, c) :: t, n => if k = n then some c else lookupChildren t n

/-- Replacement of a registered submodule by attribute name (used for
`setattr(parent, name, module)` on an existing attribute). -/
def setChildren : List (String × PyModule) → String → PyModule →
    List (String × PyModule)
  | [], _, _ => []
  | (k, c) :: t, n, v =>
    if k = n then (k, v) :: t else (k, c) :: setChildren t n v

/-- An `nn.ModuleList` child name: its registry keys are the canonical
decimal strings of the valid indices. -/
def listIndexOk (items : List PyModule) (n : String) : Option ℕ :=
  match n.toNat? with
  | some i => if toString i = n ∧ i < items.length then some i else none
  | none => none

/-- `getattr` restricted to module-valued attributes: regular modules look
up their registered children, `nn.ModuleList` resolves decimal names, a
`ProjectionWrapper`'s module attribute is its `wrapped_module`. -/
def getChild : PyModule → String → Option PyModule
  | .base _ ch, n => lookupChildren ch n
  | .moduleList items, n => (listIndexOk items n).bind fun i => items[i]?
  | .projectionWrapper w _ _, n =>
    if n = wrappedModuleAttr then some w else none

/-- `model.get_submodule(path)` over the split dotted path. -/
def getSubmodule : PyModule → List String → Option PyModule
  | m, [] => some m
  | m, n :: rest => (getChild m n).bind fun c => getSubmodule c rest

/-- One slot assignment, covering both branches of the patching code:
`setattr(parent, name, v)` when `hasattr(parent, name)`, else
`parent[int(name)] = v` (the latter fails on a regular module — not
subscriptable — and on an invalid list index). -/
def setChild : PyModule → String → PyModule → Option PyModule
  | .base t ch, n, v =>
    if (lookupChildren ch n).isSome then some (.base t (setChildren ch n v))
    else none
  | .moduleList items, n, v =>
    (listIndexOk items n).map fun i => .moduleList (items.set i v)
  | .projectionWrapper w p hl, n, v =>
    if n = wrappedModuleAttr then some (.projectionWrapper v p hl) else none

/-- Assignment at a dotted path: resolve the parent
(`*parent_path, name = module_name.split(".")`,
`parent = model.get_submodule(parent_name)`), then assign the final slot;
in the pure tree the spine along the path is rebuilt. -/
def setAt : PyModule → List String → PyModule → Option PyModule
  | _, [], _ => none
  | m, [n], v => setChild m n v
  | m, n :: rest, v =>
    (getChild m n).bind fun c => (setAt c rest v).bind fun c2 =>
      setChild m n c2

/-- `ProjectionWrapper.__init__(wrapped_module, projection, has_leftover)`:
the body stores `wrapped_module.wrapped_module` — the *attribute* of the
passed module — so construction raises `AttributeError` unless the passed
module itself carries a `wrapped_module` attribute.  The `projection`
callable is carried opaquely as a number. -/
def ProjectionWrapper.init (wrapped_module : PyModule) (projection : ℕ)
    (has_leftover : Bool) : Except PyErr PyModule :=
  match getChild wrapped_module wrappedModuleAttr with
  | some w => Except.ok (PyModule.projectionWrapper w projection has_leftover)
  | none => Except.error PyErr.attributeError

/-- `edit_model_inplace(model, old_module, module_name, projection,
has_leftover)`: first constructs the `ProjectionWrapper` (which may raise
`AttributeError` before the model is touched), then assigns the wrapper
into the resolved slot.  The final `gc.collect()` has no observable
effect in the embedding.  In-place mutation is state passing: the result
is the model after the call. -/
def edit_model_inplace (model : PyModule) (old_module : PyModule)
    (module_name : List String) (projection : ℕ) (has_leftover : Bool) :
    Except PyErr PyModule :=
  match ProjectionWrapper.init old_module projection has_leftover with
  | Except.error e => Except.error e
  | Except.ok new_module =>
    match setAt model module_name new_module with
    | some m2 => Except.ok m2
    | none => Except.error PyErr.pathError

/-- `recover_model_inplace(model, old_module, module_name)`: assigns
`old_module` back into the resolved slot. -/
def recover_model_inplace (model : PyModule) (old_module : PyModule)
    (module_name : List String) : Except PyErr PyModule :=
  match setAt model module_name old_module with
  | some m2 => Except.ok m2
  | none => Except.error PyErr.pathError

/-! ## `measure_confusions_grad` / `measure_confusions`
(utils.py, lines 217-241).

The dual-input probe `model(inps1t, inps2t)` is abstracted as a per-row
function `model : P → P → V → ℚ` from the two prompts to the raw logits
over the vocabulary `V` at the last position (`[0][:, -1]`), and
`torch.log_softmax(·, dim=-1)` as an arbitrary per-row map
`log_softmax : (V → ℚ) → V → ℚ`; `tokenizer.encode(answer)[0]` is the
abstract first-token encoding `encode1 : A → V`. -/

/-- A prompt with its expected single-token answer (one side of a Test). -/
structure Question (P A : Type) where
  prompt : P
  answer : A

/-- A Test: a positive and a negative `Question`. -/
structure Test (P A : Type) where
  positive : Question P A
  negative : Question P A

/-- Relabeling which side of a Test is called positive/negative. -/
def Test.swap {P A : Type} (t : Test P A) : Test P A :=
  ⟨t.negative, t.positive⟩

/-- The indexing `[test.positive, test.negative]` used by both loops. -/
def confusionSides {P A : Type} (t : Test P A) : Fin 2 → Question P A :=
  ![t.positive, t.negative]

/-- `outs_mixed[i][j]`: the log-softmaxed last-position logits of the
dual-input model on prompt pair `(q[i].prompt, q[j].prompt)` (the batch
of the four combinations, row `2*i + j`). -/
def outsMixed {P A V : Type} (model : P → P → V → ℚ)
    (log_softmax : (V → ℚ) → V → ℚ) (t : Test P A) (i j : Fin 2) :
    V → ℚ :=
  log_softmax (model (confusionSides t i).prompt (confusionSides t j).prompt)

/-- `res[i, j] = out_mixed[correct] - out_mixed[wrong]` where
`correct = tokenizer.encode(q1.answer)[0]` for `q1 = sides[i]` and
`wrong` is the first answer token of the other side `sides[1 - i]`. -/
def confusionRes {P A V : Type} (model : P → P → V → ℚ)
    (log_softmax : (V → ℚ) → V → ℚ) (encode1 : A → V) (t : Test P A)
    (i j : Fin 2) : ℚ :=
  outsMixed model log_softmax t i j (encode1 (confusionSides t i).answer)
    - outsMixed model log_softmax t i j
        (encode1 (confusionSides t (1 - i)).answer)

/-- `measure_confusions_grad(test, model)`:
`abs(res[0, 0] - res[0, 1]) + abs(res[1, 1] - res[1, 0])`
("Err on first + Err on second"). -/
def measure_confusions_grad {P A V : Type} (model : P → P → V → ℚ)
    (log_softmax : (V → ℚ) → V → ℚ) (encode1 : A → V) (t : Test P A) :
    ℚ :=
  |confusionRes model log_softmax encode1 t 0 0
      - confusionRes model log_softmax encode1 t 0 1|
    + |confusionRes model log_softmax encode1 t 1 1
      - confusionRes model log_softmax encode1 t 1 0|

/-- `measure_confusions(test, model)`: the same number computed under
`torch.no_grad()` and extracted with `.item()`. -/
def measure_confusions {P A V : Type} (model : P → P → V → ℚ)
    (log_softmax : (V → ℚ) → V → ℚ) (encode1 : A → V) (t : Test P A) :
    ℚ :=
  measure_confusions_grad model log_softmax encode1 t

/-! ## `create_frankenstein` (utils.py, lines 244-256).

The hooked model is factored around the single hooked `layer_module`:
`layerF inp` is the layer's forward output on input `inp` (a tuple of the
hidden-state batch and the pass-through leftovers `rest`), and
`postF inp out` is the model's final output on `inp` when the layer's
output is (possibly after modification by the hook) `out`.  The batch
has size `B + 1` so that row 0 exists.  `projection_fn` takes a single
hidden vector and the direction set (applied row-wise to a batch, as the
einsum broadcasting of `project` does); `additional` is the scalar
offset, broadcast coordinate-wise. -/

/-- Value semantics of `get_activations(inp, model, [layer_module], op)`
for the single hooked layer: the hook receives the layer output, unwraps
the leading tuple element (`out[0] if isinstance(out, tuple) else out`)
and stores `operation` of it (`.detach()` is the identity here); the
caller then reads the entry for `layer_module`. -/
def get_activations_at {Inp Rest Act : Type} {B n : ℕ}
    (layerF : Inp → (Fin (B + 1) → Fin n → ℚ) × Rest) (inp : Inp)
    (operation : (Fin (B + 1) → Fin n → ℚ) → Act) : Act :=
  operation (layerF inp).1

/-- Value semantics of `run_and_modify(inp, model, {layer_module: f})`:
the forward pass runs with the hook `f` replacing the layer's output, so
the model's final output is `postF inp` of the modified layer output. -/
def run_and_modify_at {Inp Rest Out : Type} {B n : ℕ}
    (layerF : Inp → (Fin (B + 1) → Fin n → ℚ) × Rest)
    (postF : Inp → ((Fin (B + 1) → Fin n → ℚ) × Rest) → Out) (inp : Inp)
    (f : ((Fin (B + 1) → Fin n → ℚ) × Rest) →
      ((Fin (B + 1) → Fin n → ℚ) × Rest)) : Out :=
  postF inp (f (layerF inp))

/-- `create_frankenstein(dirs, model, layer_module, additional,
projection_fn)` applied to `(inp1, inp2)` (`inp1` correct, `inp2` wrong):
* `act1 = get_activations(inp1, model, [layer_module], lambda x: x[0])[layer_module]`
  (row 0 of the captured batch),
* `proj_act1 = act1 - projection_fn(act1, dirs)`,
* the hook `mix` maps the layer output `(y, *rest)` to
  `(projection_fn(y, dirs) + proj_act1 + additional, *rest)`,
* the result is `run_and_modify(inp2, model, {layer_module: mix})`. -/
def create_frankenstein {Inp Rest Out : Type} {B n k : ℕ}
    (dirs : Fin k → Fin n → ℚ)
    (layerF : Inp → (Fin (B + 1) → Fin n → ℚ) × Rest)
    (postF : Inp → ((Fin (B + 1) → Fin n → ℚ) × Rest) → Out)
    (additional : ℚ)
    (projection_fn : (Fin n → ℚ) → (Fin k → Fin n → ℚ) → Fin n → ℚ)
    (inp1 inp2 : Inp) : Out :=
  let act1 : Fin n → ℚ := get_activations_at layerF inp1 (fun x => x 0)
  let proj_act1 : Fin n → ℚ := fun h => act1 h - projection_fn act1 dirs h
  run_and_modify_at layerF postF inp2 (fun out =>
    (fun b h => projection_fn (out.1 b) dirs h + proj_act1 h + additional,
     out.2))

/-- Modelled from the claim's words (claim C1), for comparison with
`create_frankenstein`: identical, except that the stored transplanted
signal is `projection_fn(act1, dirs)` itself (the claim's
"the stored signal equals projection_fn(act1, dirs)") rather than
`act1 - projection_fn(act1, dirs)`. -/
def create_frankenstein_claimed {Inp Rest Out : Type} {B n k : ℕ}
    (dirs : Fin k → Fin n → ℚ)
    (layerF : Inp → (Fin (B + 1) → Fin n → ℚ) × Rest)
    (postF : Inp → ((Fin (B + 1) → Fin n → ℚ) × Rest) → Out)
    (additional : ℚ)
    (projection_fn : (Fin n → ℚ) → (Fin k → Fin n → ℚ) → Fin n → ℚ)
    (inp1 inp2 : Inp) : Out :=
  let act1 : Fin n → ℚ := get_activations_at layerF inp1 (fun x => x 0)
  let stored : Fin n → ℚ := fun h => projection_fn act1 dirs h
  run_and_modify_at layerF postF inp2 (fun out =>
    (fun b h => projection_fn (out.1 b) dirs h + stored h + additional,
     out.2))

/-! ## Concrete sample inputs used by witnesses and counterexamples -/

/-- A method display name (`get_random.__name__`). -/
def methodSample : String := "get_random"

/-- A plain inner module. -/
def sampleInner : PyModule := PyModule.base 1 []

/-- An already-wrapped submodule sitting in a model slot. -/
def sampleOld : PyModule := PyModule.projectionWrapper sampleInner 11 false

/-- The attribute name of the sample slot. -/
def layerAttr : String := "layer"

/-- A model owning `sampleOld` under the attribute `layer`. -/
def sampleModel : PyModule := PyModule.base 0 [(layerAttr, sampleOld)]

/-- A plain module that was never wrapped (no `wrapped_module`
attribute). -/
def samplePlain : PyModule := PyModule.base 3 []

/-- A sample dataset with one activation row `(2)` and label `0`. -/
def sampleDs : ActivationsDataset ℚ 1 1 :=
  ⟨fun _ => fun _ => 2, fun _ => 0⟩

/-- A sample nonzero direction in dimension 1. -/
def sampleDir : Fin 1 → ℚ := fun _ => 1

/-- A sample pre-existing hook registry: one live hook (handle 0 on
module 7), next fresh handle 1. -/
def sampleHooks : HookState := ⟨1, [(0, 7)]⟩

/-- The single line printed by `fancy_print` on the C9 counterexample
input. -/
def sampleLine : String := "ab cd ef"

/-! ## Theorems for claims C5 and C3 -/

/-- Auxiliary: a single vector projected by `project` with strength 1 is
orthogonal to every one of the (orthonormal) direction rows. -/
theorem project_inner_eq_zero {n k : ℕ} (v : Fin n → ℚ)
    (dirs : Fin k → Fin n → ℚ)
    (ortho : ∀ i j, (∑ h, dirs i h * dirs j h) = if i = j then 1 else 0)
    (i : Fin k) : (∑ h, dirs i h * project v dirs 1 h) = 0 := by
  have expand :
      (∑ h, dirs i h * project v dirs 1 h)
        = (∑ h, dirs i h * v h)
          - ∑ j, (∑ h2, dirs j h2 * v h2) * ∑ h, dirs i h * dirs j h := by
    simp only [project, one_mul, mul_sub, Finset.sum_sub_distrib]
    congr 1
    calc ∑ x, dirs i x * ∑ j, (∑ h2, dirs j h2 * v h2) * dirs j x
        = ∑ x, ∑ j, dirs i x * ((∑ h2, dirs j h2 * v h2) * dirs j x) := by
          exact Finset.sum_congr rfl fun x _ => Finset.mul_sum _ _ _
      _ = ∑ j, ∑ x, dirs i x * ((∑ h2, dirs j h2 * v h2) * dirs j x) :=
          Finset.sum_comm
      _ = ∑ j, (∑ h2, dirs j h2 * v h2) * ∑ x, dirs i x * dirs j x := by
          refine Finset.sum_congr rfl fun j _ => ?_
          rw [Finset.mul_sum]
          exact Finset.sum_congr rfl fun x _ => by ring
  rw [expand]
  have collapse :
      (∑ j, (∑ h2, dirs j h2 * v h2) * ∑ h, dirs i h * dirs j h)
        = ∑ h2, dirs i h2 * v h2 := by
    have : ∀ j, (∑ h, dirs i h * dirs j h) = if i = j then 1 else 0 :=
      fun j => ortho i j
    simp only [this, mul_ite, mul_one, mul_zero]
    simp
  rw [collapse, sub_self]

/-- C5: for a batch `X` and a matrix of mutually orthonormal direction rows
(at least one row), every row of `project(X, dirs)` with strength 1 has
exactly zero inner product with every direction row. -/
theorem c5_project_orthogonal_to_dirs {B n k : ℕ} (X : Fin B → Fin n → ℚ)
    (dirs : Fin k → Fin n → ℚ) (hk : 0 < k)
    (ortho : ∀ i j, (∑ h, dirs i h * dirs j h) = if i = j then 1 else 0) :
    ∀ (b : Fin B) (i : Fin k),
      (∑ h, dirs i h * projectBatch X dirs 1 b h) = 0 := by
  intro b i
  exact project_inner_eq_zero (X b) dirs ortho i

/-- Witness for C5 at a concrete input: one orthonormal direction row
`(1, 0)` in dimension 2, one input row `(3, 5)`. -/
theorem c5_witness :
    (0 < 1 ∧ (∀ i j : Fin 1,
        (∑ h : Fin 2, (fun _ : Fin 1 => (fun h : Fin 2 => if h = 0 then (1 : ℚ) else 0)) i h *
          (fun _ : Fin 1 => (fun h : Fin 2 => if h = 0 then (1 : ℚ) else 0)) j h)
          = if i = j then 1 else 0))
    ∧ ∀ (b : Fin 1) (i : Fin 1),
        (∑ h : Fin 2, (fun _ : Fin 1 => (fun h : Fin 2 => if h = 0 then (1 : ℚ) else 0)) i h *
          projectBatch (fun _ : Fin 1 => (fun h : Fin 2 => if h = 0 then (3 : ℚ) else 5))
            (fun _ : Fin 1 => (fun h : Fin 2 => if h = 0 then (1 : ℚ) else 0)) 1 b h) = 0 :=
  ⟨⟨by decide, by intro i j; fin_cases i; fin_cases j; simp [Fin.sum_univ_two]⟩,
    c5_project_orthogonal_to_dirs
      (fun _ : Fin 1 => (fun h : Fin 2 => if h = 0 then (3 : ℚ) else 5))
      (fun _ : Fin 1 => (fun h : Fin 2 => if h = 0 then (1 : ℚ) else 0))
      (by decide)
      (by intro i j; fin_cases i; fin_cases j; simp [Fin.sum_univ_two])⟩

/-- C3: `project_cone` (instantiated with the real square root, tangent,
cosine and π, standing for their float counterparts) raises the
input-validation error (`ValueError(gamma)`, embedded as
`Except.error gamma`) exactly when `gamma` is not strictly between 0 and
π/2; in particular it raises for 0, for negative values and for values at
or beyond a right angle, and raises no validation error strictly between. -/
theorem c3_project_cone_gamma_validation {B n k : ℕ}
    (X : Fin B → Fin n → ℝ) (dirs : Fin k → Fin n → ℝ) (gamma : ℝ) :
    project_cone Real.sqrt Real.tan Real.cos Real.pi X dirs gamma
        = Except.error gamma
      ↔ ¬ (0 < gamma ∧ gamma < Real.pi / 2) := by
  unfold project_cone
  by_cases h : gamma ≤ 0 ∨ Real.pi / 2 ≤ gamma
  · rw [if_pos h]
    constructor
    · rintro - ⟨h1, h2⟩
      rcases h with h | h <;> linarith
    · intro _; rfl
  · rw [if_neg h]
    push_neg at h
    constructor
    · intro hcontra; exact absurd hcontra (by simp)
    · intro hcontra; exact absurd ⟨h.1, h.2⟩ hcontra

/-! ## Claim C8: `ActivationsDataset.project` vs `project_` -/

/-- C8: for every dataset and nonzero direction, the non-mutating
`project` leaves `self` unmodified (first component of the call) and
returns a new dataset, the in-place `project_` overwrites `self.x_data`,
and the two resulting activation matrices are identical (both equal to
`project` of `x_data` along the unit-normalized direction); the returned
dataset also carries the original label vector. -/
theorem c8_dataset_project_pure_vs_inplace {K : Type} [Field K]
    (sqrtK : K → K) {B n : ℕ} (ds : ActivationsDataset K B n)
    (dir : Fin n → K) (hdir : dir ≠ 0) :
    (ds.project sqrtK dir).1 = ds
      ∧ (ds.project sqrtK dir).2.x_data = (ds.project_ sqrtK dir).x_data
      ∧ (ds.project sqrtK dir).2.y_data = ds.y_data
      ∧ (ds.project_ sqrtK dir).y_data = ds.y_data
      ∧ (ds.project_ sqrtK dir).x_data
          = projectBatch ds.x_data (fun _ : Fin 1 => l2normalize sqrtK dir)
              1 :=
  ⟨rfl, rfl, rfl, rfl, rfl⟩

/-- Witness for C8 at the sample dataset and direction. -/
theorem c8_witness :
    sampleDir ≠ 0
    ∧ ((sampleDs.project (fun x => x) sampleDir).1 = sampleDs
      ∧ (sampleDs.project (fun x => x) sampleDir).2.x_data
          = (sampleDs.project_ (fun x => x) sampleDir).x_data
      ∧ (sampleDs.project (fun x => x) sampleDir).2.y_data
          = sampleDs.y_data
      ∧ (sampleDs.project_ (fun x => x) sampleDir).y_data
          = sampleDs.y_data
      ∧ (sampleDs.project_ (fun x => x) sampleDir).x_data
          = projectBatch sampleDs.x_data
              (fun _ : Fin 1 => l2normalize (fun x => x) sampleDir) 1) :=
  ⟨fun h => one_ne_zero (congrFun h 0),
   c8_dataset_project_pure_vs_inplace (fun x => x) sampleDs sampleDir
     (fun h => one_ne_zero (congrFun h 0))⟩

/-! ## Claim C7: direction-file naming in the generation CLI -/

/-- C7 counterexample: requesting the explicit layer index 0 produces the
*unprefixed* name — identical to the name produced when the layer
argument is omitted — because `if layer_nb` treats the int 0 as falsy;
this refutes "the file name carries the `L<layer_nb> - ` prefix iff an
explicit layer index was requested" at layer 0. -/
theorem c7_counterexample :
    runFileName (some 0) methodSample 0 = "get_random - 0 - v0.pt"
    ∧ runFileName (some 0) methodSample 0 = runFileName none methodSample 0
    ∧ runFileName (some 0) methodSample 0 ≠ "L0 - get_random - 0 - v0.pt" := by
  refine ⟨rfl, rfl, ?_⟩
  decide

/-- C7 (amended): the saved file name carries the `L<layer_nb> - ` prefix
iff the requested layer index is truthy, i.e. present *and nonzero*; an
explicit layer index of 0 yields the same unprefixed
`<method_name> - <round> - v0.pt` as an omitted layer argument. -/
theorem c7_amended_fileName (k : ℤ) (m : String) (i : ℕ) (hk : k ≠ 0) :
    runFileName (some k) m i
        = ("L" ++ toString k ++ " - " ++ m ++ " - " ++ toString i
            ++ " - v0.pt")
      ∧ runFileName (some 0) m i = (m ++ " - " ++ toString i ++ " - v0.pt")
      ∧ runFileName none m i = (m ++ " - " ++ toString i ++ " - v0.pt") := by
  refine ⟨?_, rfl, rfl⟩
  simp [runFileName, pyIntOptTruthy, pyIntOptStr, bne, hk]

/-- Witness for C7 (amended) at layer 5, round 2. -/
theorem c7_witness :
    (5 : ℤ) ≠ 0
    ∧ (runFileName (some 5) methodSample 2
        = ("L" ++ toString (5 : ℤ) ++ " - " ++ methodSample ++ " - "
            ++ toString 2 ++ " - v0.pt")
      ∧ runFileName (some 0) methodSample 2
          = (methodSample ++ " - " ++ toString 2 ++ " - v0.pt")
      ∧ runFileName none methodSample 2
          = (methodSample ++ " - " ++ toString 2 ++ " - v0.pt")) :=
  ⟨by decide, c7_amended_fileName 5 methodSample 2 (by decide)⟩

/-! ## Claim C6: swap invariance of the confusion metric -/

/-- Relabeling the sides permutes the `[test.positive, test.negative]`
indexing. -/
theorem confusionSides_swap {P A : Type} (t : Test P A) (i : Fin 2) :
    confusionSides (Test.swap t) i = confusionSides t (1 - i) := by
  fin_cases i <;> rfl

/-- Relabeling the sides permutes the margin table `res`. -/
theorem confusionRes_swap {P A V : Type} (model : P → P → V → ℚ)
    (log_softmax : (V → ℚ) → V → ℚ) (encode1 : A → V) (t : Test P A)
    (i j : Fin 2) :
    confusionRes model log_softmax encode1 (Test.swap t) i j
      = confusionRes model log_softmax encode1 t (1 - i) (1 - j) := by
  fin_cases i <;> fin_cases j <;> rfl

/-- C6: exchanging which side of a Test is labeled positive and which
negative leaves `measure_confusions_grad` (and hence `measure_confusions`)
unchanged. -/
theorem c6_measure_confusions_swap_invariant {P A V : Type}
    (model : P → P → V → ℚ) (log_softmax : (V → ℚ) → V → ℚ)
    (encode1 : A → V) (t : Test P A) :
    measure_confusions_grad model log_softmax encode1 (Test.swap t)
        = measure_confusions_grad model log_softmax encode1 t
      ∧ measure_confusions model log_softmax encode1 (Test.swap t)
        = measure_confusions model log_softmax encode1 t := by
  have h : measure_confusions_grad model log_softmax encode1 (Test.swap t)
      = measure_confusions_grad model log_softmax encode1 t := by
    unfold measure_confusions_grad
    simp only [confusionRes_swap]
    have e1 : (1 - (0 : Fin 2)) = 1 := rfl
    have e2 : (1 - (1 : Fin 2)) = 0 := rfl
    rw [e1, e2]
    exact add_comm _ _
  exact ⟨h, h⟩

/-! ## Claim C1: the frankenstein causal-intervention probe -/

/-- C1 counterexample: with a single unit direction, the identity layer
value 1, `projection_fn = project` (the default) and `additional = 0`,
the probe built by `create_frankenstein` outputs 1 while the probe the
claim describes (stored signal `projection_fn(act1, dirs)`) outputs 0:
the stored transplanted signal is *not* `projection_fn(act1, dirs)`. -/
theorem c1_counterexample :
    @create_frankenstein Unit Unit ℚ 0 1 1
        (fun _ _ => 1) (fun _ => (fun _ _ => 1, ()))
        (fun _ out => out.1 0 0) 0 (fun v ds => project v ds 1) () ()
      ≠ @create_frankenstein_claimed Unit Unit ℚ 0 1 1
        (fun _ _ => 1) (fun _ => (fun _ _ => 1, ()))
        (fun _ out => out.1 0 0) 0 (fun v ds => project v ds 1) () () := by
  show (1 : ℚ) - _ + (_ - _) + 0 ≠ _
  simp [create_frankenstein, create_frankenstein_claimed,
    get_activations_at, run_and_modify_at, project]

/-- C1 (amended): the probe built by `create_frankenstein` captures the
correct input's activation at the layer (batch row 0), stores as the
transplanted signal `act1 - projection_fn(act1, dirs)` — the component of
the clean activation *along* the direction set, i.e. what `projection_fn`
removes — and returns the model's output on the wrong input with the
layer output `y` replaced by
`projection_fn(y, dirs) + (act1 - projection_fn(act1, dirs)) + additional`. -/
theorem c1_frankenstein_characterization {Inp Rest Out : Type}
    {B n k : ℕ} (dirs : Fin k → Fin n → ℚ)
    (layerF : Inp → (Fin (B + 1) → Fin n → ℚ) × Rest)
    (postF : Inp → ((Fin (B + 1) → Fin n → ℚ) × Rest) → Out)
    (additional : ℚ)
    (projection_fn : (Fin n → ℚ) → (Fin k → Fin n → ℚ) → Fin n → ℚ)
    (inp1 inp2 : Inp) :
    create_frankenstein dirs layerF postF additional projection_fn inp1 inp2
      = postF inp2
          (fun b h =>
            projection_fn ((layerF inp2).1 b) dirs h
              + ((layerF inp1).1 0 h
                  - projection_fn ((layerF inp1).1 0) dirs h)
              + additional,
           (layerF inp2).2) := rfl

/-! ## Claim C2: guaranteed hook removal and exception propagation -/

/-- Removing two handles commutes. -/
theorem removeHandle_comm (s : HookState) (h1 h2 : ℕ) :
    removeHandle (removeHandle s h1) h2
      = removeHandle (removeHandle s h2) h1 := by
  simp only [removeHandle, List.filter_filter]
  congr 1
  exact List.filter_congr fun a _ => Bool.and_comm _ _

/-- Removing a handle commutes with removing a whole batch. -/
theorem removeAll_removeHandle (hs : List ℕ) :
    ∀ (s : HookState) (h : ℕ),
      removeAll (removeHandle s h) hs = removeHandle (removeAll s hs) h := by
  induction hs with
  | nil => intro s h; rfl
  | cons a t ih =>
    intro s h
    simp only [removeAll, List.foldl_cons]
    rw [removeHandle_comm]
    exact ih (removeHandle s a) h

/-- Filtering out a handle id that is at least the fresh counter leaves a
well-formed registration list unchanged. -/
theorem filter_ne_of_lt (l : List (ℕ × ℕ)) (n h : ℕ)
    (hl : ∀ p ∈ l, p.1 < n) (hh : n ≤ h) :
    l.filter (fun p => p.1 != h) = l := by
  rw [List.filter_eq_self]
  intro a ha
  have := hl a ha
  simp only [bne_iff_ne, ne_eq]
  omega

/-- Registering a batch of hooks and then removing every returned handle
restores exactly the pre-existing registrations. -/
theorem registerAll_removeAll (mods : List ℕ) :
    ∀ s : HookState, (∀ p ∈ s.hooks, p.1 < s.nextId) →
      removeAll (registerAll s mods).1 (registerAll s mods).2
        = ⟨(registerAll s mods).1.nextId, s.hooks⟩ := by
  induction mods with
  | nil => intro s _; rfl
  | cons m ms ih =>
    intro s hwf
    have hwf1 : ∀ p ∈ (registerForwardHook s m).1.hooks,
        p.1 < (registerForwardHook s m).1.nextId := by
      intro p hp
      simp only [registerForwardHook, List.mem_append, List.mem_singleton]
        at hp
      rcases hp with hp | hp
      · exact Nat.lt_succ_of_lt (hwf p hp)
      · subst hp; exact Nat.lt_succ_self _
    simp only [registerAll, removeAll, List.foldl_cons]
    have hr2 : (registerForwardHook s m).2 = s.nextId := rfl
    rw [hr2]
    have step := removeAll_removeHandle
      (registerAll (registerForwardHook s m).1 ms).2
      (registerAll (registerForwardHook s m).1 ms).1 s.nextId
    simp only [removeAll] at step
    have ih1 := ih (registerForwardHook s m).1 hwf1
    simp only [removeAll] at ih1
    rw [step, ih1]
    simp only [removeHandle, registerForwardHook]
    congr 1
    rw [List.filter_append]
    have h1 : s.hooks.filter (fun p => p.1 != s.nextId) = s.hooks :=
      filter_ne_of_lt s.hooks s.nextId s.nextId hwf (Nat.le_refl _)
    rw [h1]
    simp

/-- C2: `get_activations` and `run_and_modify` remove every forward hook
they registered before returning — the hook registry after the call is
exactly the pre-existing one — both when the forward pass succeeds and
when it raises, and an exception from the forward pass propagates
unchanged to the caller. -/
theorem c2_hook_cleanup {E A F : Type} (s : HookState) (modules : List ℕ)
    (fns : List (ℕ × F)) (fwd1 fwd2 : Except E A)
    (hwf : ∀ p ∈ s.hooks, p.1 < s.nextId) :
    ((get_activations s modules fwd1).2.hooks = s.hooks
      ∧ (get_activations s modules fwd1).1 = fwd1)
    ∧ ((run_and_modify s fns fwd2).2.hooks = s.hooks
      ∧ (run_and_modify s fns fwd2).1 = fwd2) := by
  have h1 := registerAll_removeAll modules s hwf
  have h2 := registerAll_removeAll (fns.map Prod.fst) s hwf
  cases fwd1 <;> cases fwd2 <;>
    simp [get_activations, run_and_modify, h1, h2]

/-- Witness for C2: a pre-existing hook survives, the fresh hooks are
gone, the error outcome of the first call and the success outcome of the
second are returned unchanged. -/
theorem c2_witness :
    (∀ p ∈ sampleHooks.hooks, p.1 < sampleHooks.nextId)
    ∧ (((get_activations sampleHooks [3, 4]
          (Except.error 7 : Except ℕ ℕ)).2.hooks = sampleHooks.hooks
        ∧ (get_activations sampleHooks [3, 4]
            (Except.error 7 : Except ℕ ℕ)).1 = Except.error 7)
      ∧ ((run_and_modify sampleHooks [(5, 9)]
            (Except.ok 2 : Except ℕ ℕ)).2.hooks = sampleHooks.hooks
        ∧ (run_and_modify sampleHooks [(5, 9)]
            (Except.ok 2 : Except ℕ ℕ)).1 = Except.ok 2)) :=
  ⟨by decide,
   c2_hook_cleanup sampleHooks [3, 4] [(5, 9)] (Except.error 7)
     (Except.ok 2) (by decide)⟩

/-! ## Claims C4 and C10: reversible model patching -/

/-- Setting an attribute that is present makes it readable. -/
theorem lookupChildren_set_self
    (ch : List (String × PyModule)) (n : String) (c v : PyModule)
    (h : lookupChildren ch n = some c) :
    lookupChildren (setChildren ch n v) n = some v := by
  induction ch with
  | nil => simp [lookupChildren] at h
  | cons a t ih =>
    obtain ⟨k, c'⟩ := a
    by_cases hk : k = n
    · subst hk; simp [lookupChildren, setChildren]
    · simp only [lookupChildren, setChildren, if_neg hk] at h ⊢
      exact ih h

/-- Overwriting an attribute and then writing back its original value
restores the original attribute list. -/
theorem setChildren_restore
    (ch : List (String × PyModule)) (n : String) (c v : PyModule)
    (h : lookupChildren ch n = some c) :
    setChildren (setChildren ch n v) n c = ch := by
  induction ch with
  | nil => simp [lookupChildren] at h
  | cons a t ih =>
    obtain ⟨k, c'⟩ := a
    by_cases hk : k = n
    · subst hk
      have h' : c' = c := by simpa [lookupChildren] using h
      subst h'
      simp [setChildren]
    · simp only [lookupChildren, if_neg hk] at h
      simp [setChildren, if_neg hk, ih h]

/-- Reading a list slot just written. -/
theorem listGet_set_self {α : Type} :
    ∀ (l : List α) (i : ℕ) (v : α), i < l.length →
      (l.set i v)[i]? = some v := by
  intro l
  induction l with
  | nil => intro i v h; simp at h
  | cons a t ih =>
    intro i v h
    cases i with
    | zero => simp [List.set]
    | succ j =>
      have := ih j v (by simpa using h)
      simpa [List.set] using this

/-- Writing the same list slot twice keeps only the second write. -/
theorem listSet_set {α : Type} :
    ∀ (l : List α) (i : ℕ) (v w : α), (l.set i v).set i w = l.set i w := by
  intro l
  induction l with
  | nil => intro i v w; rfl
  | cons a t ih =>
    intro i v w
    cases i with
    | zero => rfl
    | succ j => simp [List.set, ih]

/-- Writing back the value a list slot already holds is the identity. -/
theorem listSet_own {α : Type} :
    ∀ (l : List α) (i : ℕ) (c : α), l[i]? = some c → l.set i c = l := by
  intro l
  induction l with
  | nil => intro i c h; simp at h
  | cons a t ih =>
    intro i c h
    cases i with
    | zero =>
      have h' : a = c := by simpa using h
      simp [List.set, h']
    | succ j =>
      have h' : t[j]? = some c := by simpa using h
      simp [List.set, ih j c h']

/-- A successful indexed read is in bounds. -/
theorem listGet_lt {α : Type} :
    ∀ (l : List α) (i : ℕ) (c : α), l[i]? = some c → i < l.length := by
  intro l
  induction l with
  | nil => intro i c h; simp at h
  | cons a t ih =>
    intro i c h
    cases i with
    | zero => simp
    | succ j =>
      have h' : t[j]? = some c := by simpa using h
      simpa using ih j c h'

/-- Replacing a `ModuleList` member does not change its valid names. -/
theorem listIndexOk_set (items : List PyModule) (i : ℕ) (v : PyModule)
    (n : String) : listIndexOk (items.set i v) n = listIndexOk items n := by
  cases h : n.toNat? <;> simp [listIndexOk, h, List.length_set]

/-- Slot-level roundtrip: if attribute `n` of `m` holds `c`, then the slot
can be overwritten with any `v`, reads back as `v`, and writing `c` again
restores `m`. -/
theorem setChild_spec (m : PyModule) (n : String) (c : PyModule)
    (hc : getChild m n = some c) (v : PyModule) :
    ∃ m2, setChild m n v = some m2 ∧ getChild m2 n = some v
      ∧ setChild m2 n c = some m := by
  cases m with
  | base t ch =>
    simp only [getChild] at hc
    refine ⟨.base t (setChildren ch n v), ?_, ?_, ?_⟩
    · simp [setChild, hc]
    · simp [getChild, lookupChildren_set_self ch n c v hc]
    · simp [setChild, lookupChildren_set_self ch n c v hc,
        setChildren_restore ch n c v hc]
  | moduleList items =>
    simp only [getChild] at hc
    cases hidx : listIndexOk items n with
    | none => rw [hidx] at hc; simp at hc
    | some i =>
      rw [hidx] at hc
      simp only [Option.bind_some, Option.some_bind] at hc
      have hlt : i < items.length := listGet_lt items i c hc
      refine ⟨.moduleList (items.set i v), ?_, ?_, ?_⟩
      · simp [setChild, hidx]
      · simp [getChild, listIndexOk_set, hidx,
          listGet_set_self items i v hlt]
      · simp [setChild, listIndexOk_set, hidx, listSet_set,
          listSet_own items i c hc]
  | projectionWrapper w p hl =>
    simp only [getChild] at hc
    by_cases hn : n = wrappedModuleAttr
    · rw [if_pos hn] at hc
      simp only [Option.some_inj] at hc
      subst hc
      exact ⟨.projectionWrapper v p hl, by simp [setChild, hn],
        by simp [getChild, hn], by simp [setChild, hn]⟩
    · rw [if_neg hn] at hc; simp at hc

/-- Path-level roundtrip: if the submodule at a nonempty dotted path is
`c`, assignment of any `v` at that path succeeds, the path then resolves
to `v`, and assigning `c` back restores the original model. -/
theorem setAt_spec :
    ∀ (p : List String) (m c : PyModule), getSubmodule m p = some c →
      p ≠ [] → ∀ v, ∃ m2, setAt m p v = some m2
        ∧ getSubmodule m2 p = some v ∧ setAt m2 p c = some m := by
  intro p
  induction p with
  | nil => intro m c _ hne; exact absurd rfl hne
  | cons a rest ih =>
    intro m c hget _ v
    cases rest with
    | nil =>
      simp only [getSubmodule] at hget
      cases hchild : getChild m a with
      | none => rw [hchild] at hget; simp at hget
      | some c0 =>
        rw [hchild] at hget
        simp only [Option.some_bind, getSubmodule, Option.some_inj] at hget
        subst hget
        obtain ⟨m2, hset, hget2, hback⟩ := setChild_spec m a c0 hchild v
        exact ⟨m2, by simpa [setAt] using hset,
          by simp [getSubmodule, hget2],
          by simpa [setAt] using hback⟩
    | cons b rest2 =>
      simp only [getSubmodule] at hget
      cases hchild : getChild m a with
      | none => rw [hchild] at hget; simp at hget
      | some c1 =>
        rw [hchild] at hget
        simp only [Option.some_bind] at hget
        obtain ⟨c2, hsetc, hgetc2, hbackc⟩ :=
          ih c1 c hget (by simp) v
        obtain ⟨m2, hset, hget2, hback⟩ := setChild_spec m a c1 hchild c2
        refine ⟨m2, ?_, ?_, ?_⟩
        · simp [setAt, hchild, hsetc, hset]
        · show (getChild m2 a).bind
              (fun c => getSubmodule c (b :: rest2)) = some v
          rw [hget2]
          simpa using hgetc2
        · simp [setAt, hget2, hbackc, hback]

/-- C4: applying a patch with `edit_model_inplace` at a nonempty dotted
path whose slot holds `old_module` (itself carrying a `wrapped_module`
attribute, as `ProjectionWrapper.__init__` requires) and then undoing it
with `recover_model_inplace` at the same path restores the original model
object — hence any subsequent forward pass, being a function of the
model, produces bit-for-bit the same output as the never-patched
model. -/
theorem c4_patch_roundtrip (model old_module w : PyModule)
    (module_name : List String) (projection : ℕ) (has_leftover : Bool)
    (hne : module_name ≠ [])
    (hslot : getSubmodule model module_name = some old_module)
    (hwrap : getChild old_module wrappedModuleAttr = some w) :
    ∃ patched,
      edit_model_inplace model old_module module_name projection
          has_leftover = Except.ok patched
      ∧ recover_model_inplace patched old_module module_name
          = Except.ok model := by
  obtain ⟨m2, hset, _, hback⟩ := setAt_spec module_name model old_module
    hslot hne (.projectionWrapper w projection has_leftover)
  refine ⟨m2, ?_, ?_⟩
  · simp [edit_model_inplace, ProjectionWrapper.init, hwrap, hset]
  · simp [recover_model_inplace, hback]

/-- Witness for C4 at the sample model (`sampleOld` wrapped in the
`layer` slot of `sampleModel`). -/
theorem c4_witness :
    ([layerAttr] ≠ ([] : List String)
      ∧ getSubmodule sampleModel [layerAttr] = some sampleOld
      ∧ getChild sampleOld wrappedModuleAttr = some sampleInner)
    ∧ ∃ patched,
        edit_model_inplace sampleModel sampleOld [layerAttr] 23 true
            = Except.ok patched
        ∧ recover_model_inplace patched sampleOld [layerAttr]
            = Except.ok sampleModel :=
  ⟨⟨by simp, rfl, rfl⟩,
   c4_patch_roundtrip sampleModel sampleOld sampleInner [layerAttr] 23
     true (by simp) rfl rfl⟩

/-- C10: calling `edit_model_inplace` with an `old_module` that does not
itself carry a `wrapped_module` attribute raises `AttributeError` while
constructing the `ProjectionWrapper` — before the model tree is touched —
so the call returns the error and no patched model: the model is left
entirely unchanged. -/
theorem c10_edit_plain_module_raises (model old_module : PyModule)
    (module_name : List String) (projection : ℕ) (has_leftover : Bool)
    (hplain : getChild old_module wrappedModuleAttr = none) :
    edit_model_inplace model old_module module_name projection has_leftover
      = Except.error PyErr.attributeError := by
  simp [edit_model_inplace, ProjectionWrapper.init, hplain]

/-- Witness for C10: wrapping the never-wrapped `samplePlain` fails with
`AttributeError` and produces no model. -/
theorem c10_witness :
    getChild samplePlain wrappedModuleAttr = none
    ∧ edit_model_inplace sampleModel samplePlain [layerAttr] 23 true
        = Except.error PyErr.attributeError :=
  ⟨rfl,
   c10_edit_plain_module_raises sampleModel samplePlain [layerAttr] 23
     true rfl⟩

/-! ## Claim C9: `fancy_print` line lengths -/

/-- C9 counterexample: with `max_line_length = 6` and words
`ab cd ef` (each of length 2 ≤ 6), the flush test `lcl + len(w) > 6`
never fires because `lcl` counts only word characters (2, then 4, then
6), so the single printed line is `"ab cd ef"` of length 8 > 6: the
printed line (words joined by single spaces) exceeds `max_line_length`,
refuting the claim. -/
theorem c9_counterexample :
    ¬ ((∀ w ∈ (["ab", "cd", "ef"] : List String), w.length ≤ 6) →
        ∀ l ∈ fancy_print ["ab", "cd", "ef"] 6, l.length ≤ 6) := by
  intro hclaim
  have hw : ∀ w ∈ (["ab", "cd", "ef"] : List String), w.length ≤ 6 := by
    decide
  have hline := hclaim hw sampleLine (by decide)
  exact absurd hline (by decide)

/-- The loop invariant of `fancy_print`: if every word fits on its own
(`len(w) ≤ max_line_length`) and the running total `lcl` equals the word
lengths of the current line and is within the limit, then every flushed
word group has total word length within the limit. -/
theorem fancyPrintGroups_sum_le (maxL : ℕ) :
    ∀ (ws cl : List String) (lcl : ℕ),
      lcl = (cl.map String.length).sum → lcl ≤ maxL →
      (∀ w ∈ ws, w.length ≤ maxL) →
      ∀ g ∈ fancyPrintGroups maxL ws cl lcl,
        (g.map String.length).sum ≤ maxL := by
  intro ws
  induction ws with
  | nil =>
    intro cl lcl h1 h2 _ g hg
    simp only [fancyPrintGroups, List.mem_singleton] at hg
    subst hg
    omega
  | cons w ws ih =>
    intro cl lcl h1 h2 h3 g hg
    by_cases hc : lcl + w.length > maxL
    · simp only [fancyPrintGroups, if_pos hc] at hg
      rcases List.mem_cons.mp hg with rfl | hg2
      · omega
      · exact ih [w] w.length (by simp)
          (h3 w (List.mem_cons_self _ _))
          (fun w2 hw2 => h3 w2 (List.mem_cons_of_mem _ hw2)) g hg2
    · simp only [fancyPrintGroups, if_neg hc] at hg
      exact ih (cl ++ [w]) (lcl + w.length)
        (by simp [h1]) (by omega)
        (fun w2 hw2 => h3 w2 (List.mem_cons_of_mem _ hw2)) g hg

/-- C9 (amended): `fancy_print` flushes exactly when the running total of
the accumulated words' lengths — the joining spaces are *not* counted —
plus the next word's length would exceed `max_line_length`; consequently,
when every word has length at most `max_line_length`, every printed line
comes from a flushed word group whose total word length is at most
`max_line_length` (the printed line itself may exceed the limit by up to
one character per joining space). -/
theorem c9_flush_totals_bounded (maxL : ℕ) (ws : List String)
    (hw : ∀ w ∈ ws, w.length ≤ maxL) :
    ∀ l ∈ fancy_print ws maxL,
      ∃ g ∈ fancyPrintGroups maxL ws [] 0,
        l = String.intercalate spaceSep g
        ∧ (g.map String.length).sum ≤ maxL := by
  intro l hl
  simp only [fancy_print, List.mem_map] at hl
  obtain ⟨g, hg, rfl⟩ := hl
  exact ⟨g, hg, rfl,
    fancyPrintGroups_sum_le maxL ws [] 0 rfl (Nat.zero_le _) hw g hg⟩

/-- Witness for C9 (amended) on the counterexample input. -/
theorem c9_witness :
    (∀ w ∈ (["ab", "cd", "ef"] : List String), w.length ≤ 6)
    ∧ ∀ l ∈ fancy_print ["ab", "cd", "ef"] 6,
        ∃ g ∈ fancyPrintGroups 6 ["ab", "cd", "ef"] [] 0,
          l = String.intercalate spaceSep g
          ∧ (g.map String.length).sum ≤ 6 :=
  ⟨by decide, c9_flush_totals_bounded 6 ["ab", "cd", "ef"] (by decide)⟩

end CFE
